import Mathlib

/-!
# Verification of the darkdraw ANSI art loader (`darkdraw/loader_ansi.py`)

This file gives a shallow embedding of the `ANSIParser` class of
`darkdraw/loader_ansi.py` and settles the frozen claims about it.

Conventions of the embedding:
* Python `int` values are `Int`; the cursor, color indices and bounds are `Int`.
* The decoded text is a `List Char` (Python `str` is a sequence of code points).
* Python exceptions are modelled with `Except Unit`: an uncaught exception is
  `.error ()`, normal return is `.ok`.  `try`/`except` blocks are modelled by
  `Option`-returning parses at the points where the source catches.
* The parser object is the record `PState`; `parse` threads it explicitly.
* The scan loop of `ANSIParser.parse` consumes at least one character per
  iteration (proved below), so it is embedded structurally with a fuel
  argument initialised to the length of the input; the fuel-independence
  theorem for claim C9 shows the fuel never runs out.
* The floating point expressions `round(((r - 8) / 247) * 24)` and
  `round(r / 51)` are modelled exactly: `pyRoundDiv a b` is Python's
  round-half-to-even applied to the exact rational `a / b`
  (`round(((r-8)/247)*24) = pyRoundDiv ((r-8)*24) 247`, `round(r/51) =
  pyRoundDiv r 51`).  For the integer inputs involved the exact quotient is
  never at distance less than `1/(2*247)` from a half-integer tie, which far
  exceeds double rounding error, so the exact model agrees with the float
  computation (and the tie-breaking direction is never exercised).
-/

/-- One output record, mirroring
`AttrDict(type='', x=self.x, y=self.y, text=ch, color=color, tags=[])`
built in `ANSIParser.add_character`. -/
structure Row where
  type : String
  x : Int
  y : Int
  text : Char
  color : String
  tags : List String
  deriving DecidableEq, Repr

/-- The mutable fields of the `ANSIParser` object (`ANSIParser.__init__`). -/
structure PState where
  x : Int
  y : Int
  fg_color : Option Int
  bg_color : Option Int
  bold : Bool
  underline : Bool
  reverse : Bool
  rows : List Row
  max_x : Int
  max_y : Int
  deriving DecidableEq, Repr

/-- `ANSIParser.__init__`: position (0,0), no colors, no attributes, no rows. -/
def initState : PState :=
  { x := 0, y := 0, fg_color := none, bg_color := none, bold := false,
    underline := false, reverse := false, rows := [], max_x := 0, max_y := 0 }

/-- Python's built-in `round` (round-half-to-even) of the exact rational
`a / b`, for `0 < b`: `a / b` and `a % b` are euclidean quotient/remainder,
so `a % b ∈ [0, b)` and the three branches compare the fractional part
`(a % b) / b` against `1/2`. -/
def pyRoundDiv (a b : Int) : Int :=
  if 2 * (a % b) < b then a / b
  else if b < 2 * (a % b) then a / b + 1
  else if (a / b) % 2 = 0 then a / b else a / b + 1

/-- `ANSIParser.rgb_to_256`: convert RGB to nearest 256 color index.
`round(((r - 8) / 247) * 24)` is `pyRoundDiv ((r - 8) * 24) 247` and
`round(c / 51)` is `pyRoundDiv c 51` (see the module comment on floats). -/
def rgb_to_256 (r g b : Int) : Int :=
  if r = g ∧ g = b then
    if r < 8 then 16
    else if r > 248 then 231
    else pyRoundDiv ((r - 8) * 24) 247 + 232
  else
    16 + 36 * pyRoundDiv r 51 + 6 * pyRoundDiv g 51 + pyRoundDiv b 51

/-- Numeric value of a digit list, most significant first. -/
def digitsVal (cs : List Char) : Nat :=
  cs.foldl (fun a c => a * 10 + (c.toNat - 48)) 0

/-- Python's `int(s)` on the strings reachable in this module: an optional
sign followed by decimal digits (`none` models `ValueError`).  The CSI
parameter grammar `[0-9;:]*` only ever produces plain digit strings here;
whitespace/underscore forms accepted by CPython cannot arise. -/
def pyInt (s : String) : Option Int :=
  match s.data with
  | [] => none
  | '-' :: cs => if cs ≠ [] ∧ cs.all Char.isDigit then some (-(digitsVal cs : Int)) else none
  | '+' :: cs => if cs ≠ [] ∧ cs.all Char.isDigit then some (digitsVal cs) else none
  | cs => if cs.all Char.isDigit then some (digitsVal cs) else none

/-- Python's `list.index`: position of the first occurrence, `none` models the
`ValueError` raised when the element is absent. -/
def pyIndex (s : String) : List String → Option Nat
  | [] => none
  | t :: ts => if t = s then some 0 else (pyIndex s ts).map (· + 1)

/-- One truecolor channel: `int(params[k]) if params[k] else 153`, with
`none` for the `ValueError` of an unparseable non-empty string. -/
def chanVal (p : String) : Option Int :=
  if p = "" then some 153 else pyInt p

/-- The extended-color block duplicated for codes 38 and 48 in
`ANSIParser.handle_sgr` (lines 155-175 and 180-200 of the source).
`code` is the integer 38 or 48; `old` the current fg/bg field.
`idx = params.index(str(code))` raises an uncaught `ValueError`
(modelled `.error ()`) when `str(code)` is not literally in the list. -/
def extendedColor (params : List String) (code : Int) (old : Option Int) :
    Except Unit (Option Int) :=
  match pyIndex (toString code) params with
  | none => .error ()
  | some idx =>
    if idx + 1 < params.length then
      if params.getD (idx + 1) "" = "5" ∧ idx + 2 < params.length then
        -- 256 color mode: `int(params[idx+2]) if params[idx+2] else None`,
        -- `except (ValueError, IndexError): pass`
        if params.getD (idx + 2) "" = "" then .ok none
        else
          match pyInt (params.getD (idx + 2) "") with
          | some n => .ok (some n)
          | none => .ok old
      else if params.getD (idx + 1) "" = "2" then
        -- RGB/truecolor mode, approximated to 256 colors
        if idx + 4 < params.length then
          match chanVal (params.getD (idx + 2) ""), chanVal (params.getD (idx + 3) ""),
              chanVal (params.getD (idx + 4) "") with
          | some r, some g, some b => .ok (some (rgb_to_256 r g b))
          | _, _, _ => .ok (some (rgb_to_256 153 153 153))
        else .ok old
      else .ok old
    else .ok old

/-- The `elif` chain of `ANSIParser.handle_sgr` dispatching one parsed
integer code (the `params` list is still needed for the extended 38/48
forms, which look back into it). -/
def sgrApply (params : List String) (st : PState) (code : Int) :
    Except Unit PState :=
  if code = 0 then
      .ok { st with fg_color := none, bg_color := none, bold := false,
                    underline := false, reverse := false }
    else if code = 1 then .ok { st with bold := true }
    else if code = 4 then .ok { st with underline := true }
    else if code = 7 then .ok { st with reverse := true }
    else if code = 22 then .ok { st with bold := false }
    else if code = 24 then .ok { st with underline := false }
    else if code = 27 then .ok { st with reverse := false }
    else if 30 ≤ code ∧ code ≤ 37 then .ok { st with fg_color := some (code - 30) }
    else if code = 38 then
      (extendedColor params code st.fg_color).map (fun c => { st with fg_color := c })
    else if code = 39 then .ok { st with fg_color := none }
    else if 40 ≤ code ∧ code ≤ 47 then .ok { st with bg_color := some (code - 40) }
    else if code = 48 then
      (extendedColor params code st.bg_color).map (fun c => { st with bg_color := c })
    else if code = 49 then .ok { st with bg_color := none }
    else if 90 ≤ code ∧ code ≤ 97 then .ok { st with fg_color := some (code - 90 + 8) }
  else if 100 ≤ code ∧ code ≤ 107 then .ok { st with bg_color := some (code - 100 + 8) }
  else .ok st

/-- The body of the `for param in params` loop of `ANSIParser.handle_sgr`:
`if not param: param = '0'`, then `code = int(param)` with
`except ValueError: continue`, then the `elif` chain. -/
def sgrStep (params : List String) (st : PState) (param0 : String) :
    Except Unit PState :=
  match pyInt (if param0 = "" then "0" else param0) with
  | none => .ok st
  | some code => sgrApply params st code

/-- `ANSIParser.handle_sgr`: fold the step over the parameter list; an
uncaught exception aborts the loop. -/
def handle_sgr (params : List String) (st : PState) : Except Unit PState :=
  params.foldlM (sgrStep params) st

/-- A relative cursor movement (`C`/`D`/`A`/`B`):
`n = int(params[0]) if params[0] else 1` with `except ValueError: pass`.
An empty `params` list would raise an uncaught `IndexError` on `params[0]`
(unreachable from `parse`, whose split always yields a non-empty list). -/
def relMove (params : List String) (st : PState) (f : PState → Int → PState) :
    Except Unit PState :=
  match params with
  | [] => .error ()
  | p0 :: _ =>
    match (if p0 = "" then some 1 else pyInt p0) with
    | some n => .ok (f st n)
    | none => .ok st

/-- The `H`/`f` (cursor position) block of `handle_escape_sequence`: both
locals `y` and `x` are computed before either field is assigned, so a
`ValueError`/`IndexError` anywhere leaves the state unchanged (`pass`). -/
def cursorPos (params : List String) (st : PState) : PState :=
  match params with
  | [] => st
  | p0 :: _ =>
    match (if p0 ≠ "" then (pyInt p0).map (fun n => n - 1) else some 0),
        (if 1 < params.length ∧ params.getD 1 "" ≠ "" then
          (pyInt (params.getD 1 "")).map (fun n => n - 1)
        else some 0) with
    | some yy, some xx => { st with x := max 0 xx, y := max 0 yy }
    | _, _ => st

/-- `ANSIParser.handle_escape_sequence`. -/
def handle_escape_sequence (params : List String) (command : Char) (st : PState) :
    Except Unit PState :=
  if command = 'm' then handle_sgr params st
  else if command = 'H' ∨ command = 'f' then .ok (cursorPos params st)
  else if command = 'J' then
    .ok (if params ≠ [] ∧ params.getD 0 "" = "2" then { st with x := 0, y := 0 } else st)
  else if command = 'C' then relMove params st (fun st n => { st with x := st.x + n })
  else if command = 'D' then relMove params st (fun st n => { st with x := max 0 (st.x - n) })
  else if command = 'A' then relMove params st (fun st n => { st with y := max 0 (st.y - n) })
  else if command = 'B' then relMove params st (fun st n => { st with y := st.y + n })
  else .ok st

/-- The color string built in `ANSIParser.add_character` from the (already
reverse-swapped) foreground/background. -/
def color_descriptor (bold underline : Bool) (fg bg : Option Int) : String :=
  let parts := (if bold then ["bold"] else []) ++ (if underline then ["underline"] else [])
  let parts := parts ++ (match fg with | some f => [toString f] | none => [])
  let parts := parts ++ (match bg with | some b => ["on", toString b] | none => [])
  String.intercalate " " parts

/-- `ANSIParser.add_character`: emit a row at the current position with the
effective (reverse-aware) colors, and update the running maxima. -/
def add_character (ch : Char) (st : PState) : PState :=
  let fgbg := if st.reverse then (st.bg_color, st.fg_color) else (st.fg_color, st.bg_color)
  let row : Row :=
    { type := "", x := st.x, y := st.y, text := ch,
      color := color_descriptor st.bold st.underline fgbg.1 fgbg.2, tags := [] }
  { st with rows := st.rows ++ [row],
            max_x := max st.max_x st.x, max_y := max st.max_y st.y }

/-- The regular-character branch of the scan loop (`parse`, lines 69-81). -/
def literalStep (ch : Char) (st : PState) : PState :=
  if ch = '\n' then { st with y := st.y + 1, x := 0 }
  else if ch = '\r' then { st with x := 0 }
  else if ch ≠ '\x1b' then
    if 32 ≤ ch.toNat ∨ ch = '\t' then
      let st1 := add_character ch st
      { st1 with x := st1.x + 1 }
    else st
  else st

/-- A character allowed in the CSI parameter substring (`[0-9;:]`). -/
def isParamChar (c : Char) : Bool := c.isDigit || c = ';' || c = ':'

/-- A character matching the regex class `[A-Za-z]`. -/
def isAsciiLetter (c : Char) : Bool := ('A' ≤ c && c ≤ 'Z') || ('a' ≤ c && c ≤ 'z')

/-- Matcher for `csi_pattern = re.compile(r'\x1b\[([0-9;:]*)([A-Za-z])')`
anchored at the current position; returns the raw parameter substring, the
command letter, and the remaining input.  The parameter class and the letter
class are disjoint, so the greedy regex match is exactly maximal munch. -/
def csiMatch (cs : List Char) : Option (List Char × Char × List Char) :=
  match cs with
  | e :: b :: r2 =>
    if e = '\x1b' ∧ b = '[' then
      match r2.dropWhile isParamChar with
      | c :: r3 => if isAsciiLetter c then some (r2.takeWhile isParamChar, c, r3) else none
      | [] => none
    else none
  | _ => none

/-- Matcher for `osc_pattern = re.compile(r'\x1b\]([^\x07\x1b]*(?:\x07|\x1b\\))')`
anchored at the current position; the character class excludes both
terminator leads, so the greedy match is deterministic. -/
def oscMatch (cs : List Char) : Option (List Char) :=
  match cs with
  | e :: b :: r2 =>
    if e = '\x1b' ∧ b = ']' then
      match r2.dropWhile (fun c => !(c = '\x07' || c = '\x1b')) with
      | '\x07' :: r3 => some r3
      | '\x1b' :: '\\' :: r3 => some r3
      | _ => none
    else none
  | _ => none

/-- Matcher for `charset_pattern = re.compile(r'\x1b[()][AB012]')`. -/
def charsetMatch (cs : List Char) : Option (List Char) :=
  match cs with
  | e :: b :: d :: r3 =>
    if e = '\x1b' ∧ (b = '(' ∨ b = ')') ∧
        (d = 'A' ∨ d = 'B' ∨ d = '0' ∨ d = '1' ∨ d = '2') then some r3
    else none
  | _ => none

/-- `params_str = match.group(1).replace(':', ';')`. -/
def colonToSemi (c : Char) : Char := if c = ':' then ';' else c

/-- Python `str.split(';')` on a character list (empty slots preserved);
for the empty string this returns `[""]`, which coincides with the source's
`params_str.split(';') if params_str else ['']`. -/
def splitSemi : List Char → List String
  | [] => [""]
  | c :: rest =>
    let r := splitSemi rest
    if c = ';' then "" :: r
    else
      match r with
      | s :: ss => String.mk (c :: s.data) :: ss
      | [] => [String.mk [c]]

/-- The `while i < len(content)` loop of `ANSIParser.parse`.  Each iteration
consumes at least one character (claim C9), so the loop is embedded with a
fuel argument; `parse` passes `content.length`, which never runs out
(`parseLoopF_fuel` below).  The fuel-exhausted branch returns the current
state, exactly like reaching the end of input. -/
def parseLoopF (st : PState) : Nat → List Char → Except Unit PState
  | _, [] => .ok st
  | 0, _ :: _ => .ok st
  | fuel + 1, ch :: rest =>
    match csiMatch (ch :: rest) with
    | some (ps, cmd, rest1) =>
      match handle_escape_sequence (splitSemi (ps.map colonToSemi)) cmd st with
      | .ok st1 => parseLoopF st1 fuel rest1
      | .error e => .error e
    | none =>
      match oscMatch (ch :: rest) with
      | some rest2 => parseLoopF st fuel rest2
      | none =>
        match charsetMatch (ch :: rest) with
        | some rest3 => parseLoopF st fuel rest3
        | none => parseLoopF (literalStep ch st) fuel rest

/-- `ANSIParser.parse` run from a fresh parser object, returning the full
final object state (an uncaught exception is `.error ()`). -/
def parseState (content : List Char) : Except Unit PState :=
  parseLoopF initState content.length content

/-- `ANSIParser.parse`: returns `self.rows`. -/
def parse (content : List Char) : Except Unit (List Row) :=
  (parseState content).map (fun st => st.rows)

/-- Maximum of a list of integers floored at 0, as accumulated by the
`max_x`/`max_y` updates (both start at 0 and all emitted coordinates are
non-negative). -/
def foldMax (l : List Int) : Int := l.foldl max 0

/-- Modelled from the spec: the `width` field of `ParseResult` (§3).  The
code under `src/` only tracks `max_x`; the ParseResult record itself is
assembled by the out-of-scope Drawing consumer.  "width/height are one more
than the maximum x/y observed across all emitted cells" and 0 if no cells
were emitted. -/
def resultWidth (rows : List Row) : Int :=
  if rows = [] then 0 else 1 + foldMax (rows.map Row.x)

/-- Modelled from the spec: the `height` field of `ParseResult` (§3), one
more than the maximum y over emitted cells, 0 if no cells were emitted. -/
def resultHeight (rows : List Row) : Int :=
  if rows = [] then 0 else 1 + foldMax (rows.map Row.y)

/-! ## Basic lemmas -/

/-- `fg_color`/`bg_color` is either absent or a non-negative index. -/
def NNOpt (o : Option Int) : Prop := ∀ n, o = some n → 0 ≤ n

/-- The bookkeeping invariant of the emitter: the running maxima agree with
the maxima over the emitted rows, and all coordinates are non-negative. -/
def TrackInv (st : PState) : Prop :=
  st.max_x = foldMax (st.rows.map Row.x) ∧
  st.max_y = foldMax (st.rows.map Row.y) ∧
  0 ≤ st.x ∧ 0 ≤ st.y ∧
  (∀ r ∈ st.rows, 0 ≤ r.x ∧ 0 ≤ r.y)

theorem NNOpt_none : NNOpt none := by intro n h; cases h

theorem except_map_ok {α β : Type} {f : α → β} {e : Except Unit α} {b : β}
    (h : e.map f = .ok b) : ∃ a, e = .ok a ∧ f a = b := by
  cases e with
  | ok a => exact ⟨a, rfl, by simpa [Except.map] using h⟩
  | error _ => simp [Except.map] at h

theorem len_dropWhile_le (p : Char → Bool) :
    ∀ l : List Char, (l.dropWhile p).length ≤ l.length := by
  intro l
  induction l with
  | nil => simp
  | cons c cs ih =>
    rw [List.dropWhile_cons]
    split
    · exact le_trans ih (by simp)
    · simp

theorem getD_mem {l : List String} {i : Nat} (h : i < l.length) (d : String) :
    l.getD i d ∈ l := by
  rw [List.getD_eq_getElem l d h]; exact List.getElem_mem ..

/-! ## Scanner matcher inversions and progress -/

theorem csiMatch_inv {cs ps rest : List Char} {c : Char}
    (h : csiMatch cs = some (ps, c, rest)) :
    ∃ r2, cs = '\x1b' :: '[' :: r2 ∧ ps = r2.takeWhile isParamChar ∧
      r2.dropWhile isParamChar = c :: rest ∧ isAsciiLetter c = true := by
  match cs with
  | [] => simp [csiMatch] at h
  | [e] => simp [csiMatch] at h
  | e :: b :: r2 =>
    refine ⟨r2, ?_⟩
    simp only [csiMatch] at h
    split at h
    · rename_i hc
      obtain ⟨rfl, rfl⟩ := hc
      split at h
      · rename_i c' r3 heq
        split at h
        · rename_i hlet
          simp only [Option.some.injEq, Prod.mk.injEq] at h
          obtain ⟨rfl, rfl, rfl⟩ := h
          exact ⟨rfl, rfl, heq, hlet⟩
        · exact absurd h (by simp)
      · exact absurd h (by simp)
    · exact absurd h (by simp)

theorem csiMatch_progress {cs ps rest : List Char} {c : Char}
    (h : csiMatch cs = some (ps, c, rest)) : rest.length < cs.length := by
  obtain ⟨r2, rfl, -, heq, -⟩ := csiMatch_inv h
  have h1 := len_dropWhile_le isParamChar r2
  rw [heq] at h1
  simp only [List.length_cons] at h1 ⊢
  omega

theorem csiMatch_params {cs ps rest : List Char} {c : Char}
    (h : csiMatch cs = some (ps, c, rest)) :
    ∀ a ∈ ps, isParamChar a = true := by
  obtain ⟨r2, -, rfl, -, -⟩ := csiMatch_inv h
  exact fun a ha => List.mem_takeWhile_imp ha

theorem oscMatch_progress {cs rest : List Char}
    (h : oscMatch cs = some rest) : rest.length < cs.length := by
  match cs with
  | [] => simp [oscMatch] at h
  | [e] => simp [oscMatch] at h
  | e :: b :: r2 =>
    simp only [oscMatch] at h
    split at h
    · have h1 := len_dropWhile_le (fun c => !(c = '\x07' || c = '\x1b')) r2
      split at h
      · rename_i r3 heq
        injection h with h2
        subst h2
        rw [heq] at h1
        simp only [List.length_cons] at h1 ⊢
        omega
      · rename_i r3 heq
        injection h with h2
        subst h2
        rw [heq] at h1
        simp only [List.length_cons] at h1 ⊢
        omega
      · exact absurd h (by simp)
    · exact absurd h (by simp)

theorem charsetMatch_progress {cs rest : List Char}
    (h : charsetMatch cs = some rest) : rest.length < cs.length := by
  match cs with
  | [] => simp [charsetMatch] at h
  | [e] => simp [charsetMatch] at h
  | [e, b] => simp [charsetMatch] at h
  | e :: b :: d :: r3 =>
    simp only [charsetMatch] at h
    split at h
    · injection h with h2
      subst h2
      simp only [List.length_cons]
      omega
    · exact absurd h (by simp)

/-! ## Parameter-splitting lemmas -/

theorem splitSemi_ne_nil : ∀ cs : List Char, splitSemi cs ≠ [] := by
  intro cs
  cases cs with
  | nil => simp [splitSemi]
  | cons c rest =>
    simp only [splitSemi]
    split
    · simp
    · split <;> simp

theorem splitSemi_chars (p : Char → Prop) :
    ∀ cs : List Char, (∀ c ∈ cs, p c) →
      ∀ s ∈ splitSemi cs, ∀ c ∈ s.data, p c ∧ c ≠ ';' := by
  intro cs
  induction cs with
  | nil =>
    intro _ s hs c hc
    simp only [splitSemi, List.mem_singleton] at hs
    subst hs
    simp at hc
  | cons a rest ih =>
    intro hall s hs c hc
    have hrest : ∀ c ∈ rest, p c := fun c hc => hall c (List.mem_cons_of_mem a hc)
    simp only [splitSemi] at hs
    by_cases ha : a = ';'
    · rw [if_pos ha] at hs
      rcases List.mem_cons.mp hs with rfl | hs
      · simp at hc
      · exact ih hrest s hs c hc
    · rw [if_neg ha] at hs
      cases hr : splitSemi rest with
      | nil => exact absurd hr (splitSemi_ne_nil rest)
      | cons s0 ss =>
        rw [hr] at hs
        rcases List.mem_cons.mp hs with rfl | hs
        · have : c ∈ a :: s0.data := hc
          rcases List.mem_cons.mp this with rfl | hc0
          · exact ⟨hall c (List.mem_cons_self c rest), ha⟩
          · exact ih hrest s0 (hr ▸ List.mem_cons_self s0 ss) c hc0
        · exact ih hrest s (hr ▸ List.mem_cons_of_mem s0 hs) c hc

/-! ## Fuel independence of the scan loop -/

theorem parseLoopF_fuel_irrel :
    ∀ (f1 : Nat) (f2 : Nat) (cs : List Char) (st : PState),
      cs.length ≤ f1 → cs.length ≤ f2 →
      parseLoopF st f1 cs = parseLoopF st f2 cs := by
  intro f1
  induction f1 with
  | zero =>
    intro f2 cs st h1 h2
    have : cs = [] := by
      cases cs with
      | nil => rfl
      | cons a l => simp at h1
    subst this
    cases f2 <;> rfl
  | succ f ih =>
    intro f2 cs st h1 h2
    cases cs with
    | nil => cases f2 <;> rfl
    | cons ch rest =>
      cases f2 with
      | zero => simp at h2
      | succ g =>
        simp only [parseLoopF]
        cases hc : csiMatch (ch :: rest) with
        | some v =>
          obtain ⟨ps, cmd, rest1⟩ := v
          have hlt := csiMatch_progress hc
          simp only [List.length_cons] at hlt h1 h2
          simp only [hc]
          cases he : handle_escape_sequence (splitSemi (ps.map colonToSemi)) cmd st with
          | ok st1 => exact ih g rest1 st1 (by omega) (by omega)
          | error e => rfl
        | none =>
          simp only [hc]
          cases ho : oscMatch (ch :: rest) with
          | some rest2 =>
            have hlt := oscMatch_progress ho
            simp only [List.length_cons] at hlt h1 h2
            simp only [ho]
            exact ih g rest2 st (by omega) (by omega)
          | none =>
            simp only [ho]
            cases hcs : charsetMatch (ch :: rest) with
            | some rest3 =>
              have hlt := charsetMatch_progress hcs
              simp only [List.length_cons] at hlt h1 h2
              simp only [hcs]
              exact ih g rest3 st (by omega) (by omega)
            | none =>
              simp only [hcs, List.length_cons] at h1 h2 ⊢
              exact ih g rest (literalStep ch st) (by omega) (by omega)

theorem parseLoopF_fuel {f : Nat} {cs : List Char} (st : PState)
    (h : cs.length ≤ f) : parseLoopF st f cs = parseLoopF st cs.length cs :=
  parseLoopF_fuel_irrel f cs.length cs st h le_rfl

/-! ## A generic invariant principle for the scan loop -/

theorem parseLoopF_inv (P : PState → Prop)
    (hlit : ∀ ch st, P st → P (literalStep ch st))
    (hesc : ∀ params cmd st st',
      (∀ s ∈ params, ∀ c ∈ s.data, c.isDigit = true) →
      P st → handle_escape_sequence params cmd st = .ok st' → P st') :
    ∀ (fuel : Nat) (cs : List Char) (st st' : PState),
      P st → parseLoopF st fuel cs = .ok st' → P st' := by
  intro fuel
  induction fuel with
  | zero =>
    intro cs st st' hP h
    cases cs with
    | nil => injection h with h; subst h; exact hP
    | cons a l => injection h with h; subst h; exact hP
  | succ f ih =>
    intro cs st st' hP h
    cases cs with
    | nil => injection h with h; subst h; exact hP
    | cons ch rest =>
      simp only [parseLoopF] at h
      cases hc : csiMatch (ch :: rest) with
      | some v =>
        obtain ⟨ps, cmd, rest1⟩ := v
        simp only [hc] at h
        cases he : handle_escape_sequence (splitSemi (ps.map colonToSemi)) cmd st with
        | ok st1 =>
          simp only [he] at h
          have hdig : ∀ s ∈ splitSemi (ps.map colonToSemi), ∀ c ∈ s.data,
              c.isDigit = true := by
            intro s hs c hcs
            have hpc := csiMatch_params hc
            have hmap : ∀ a ∈ ps.map colonToSemi, a.isDigit = true ∨ a = ';' := by
              intro a ha
              obtain ⟨a0, ha0, rfl⟩ := List.mem_map.mp ha
              have h0 := hpc a0 ha0
              simp only [isParamChar, Bool.or_eq_true, decide_eq_true_eq] at h0
              unfold colonToSemi
              rcases h0 with (h' | h') | h'
              · left; split
                · rename_i hcol; rw [hcol] at h'; exact absurd h' (by decide)
                · exact h'
              · right; simp [h']
              · right; simp [h']
            have hres := splitSemi_chars (fun c => c.isDigit = true ∨ c = ';')
              (ps.map colonToSemi) hmap s hs c hcs
            rcases hres with ⟨hq | hq, hne⟩
            · exact hq
            · exact absurd hq hne
          exact ih rest1 st1 st' (hesc _ cmd st st1 hdig hP he) h
        | error e => simp only [he] at h; exact absurd h (by simp)
      | none =>
        simp only [hc] at h
        cases ho : oscMatch (ch :: rest) with
        | some rest2 => simp only [ho] at h; exact ih rest2 st st' hP h
        | none =>
          simp only [ho] at h
          cases hcs : charsetMatch (ch :: rest) with
          | some rest3 => simp only [hcs] at h; exact ih rest3 st st' hP h
          | none =>
            simp only [hcs] at h
            exact ih rest (literalStep ch st) st' (hlit ch st hP) h

/-! ## Non-negativity of parsed and computed color values -/

theorem pyInt_digits_nonneg {s : String}
    (hd : ∀ c ∈ s.data, c.isDigit = true) {n : Int}
    (h : pyInt s = some n) : 0 ≤ n := by
  unfold pyInt at h
  split at h
  · exact absurd h (by simp)
  · rename_i cs heq
    have : ('-').isDigit = true := hd '-' (by rw [heq]; exact List.mem_cons_self ..)
    exact absurd this (by decide)
  · rename_i cs heq
    have : ('+').isDigit = true := hd '+' (by rw [heq]; exact List.mem_cons_self ..)
    exact absurd this (by decide)
  · rename_i h1 h2 h3
    split at h
    · injection h with h
      subst h
      exact Int.ofNat_nonneg _
    · exact absurd h (by simp)

theorem pyRoundDiv_nonneg {a b : Int} (ha : 0 ≤ a) (hb : 0 < b) :
    0 ≤ pyRoundDiv a b := by
  have hf : (0 : Int) ≤ a / b := Int.ediv_nonneg ha (le_of_lt hb)
  unfold pyRoundDiv
  split
  · exact hf
  · split
    · omega
    · split <;> omega

theorem rgb_to_256_nonneg {r g b : Int} (hr : 0 ≤ r) (hg : 0 ≤ g) (hb : 0 ≤ b) :
    0 ≤ rgb_to_256 r g b := by
  unfold rgb_to_256
  split
  · split
    · norm_num
    · split
      · norm_num
      · rename_i h8 _
        have := pyRoundDiv_nonneg (a := (r - 8) * 24) (b := 247)
          (by have := not_lt.mp h8; omega) (by norm_num)
        omega
  · have h1 := pyRoundDiv_nonneg (a := r) (b := 51) hr (by norm_num)
    have h2 := pyRoundDiv_nonneg (a := g) (b := 51) hg (by norm_num)
    have h3 := pyRoundDiv_nonneg (a := b) (b := 51) hb (by norm_num)
    omega

theorem chanVal_digits_nonneg {p : String}
    (hd : ∀ c ∈ p.data, c.isDigit = true) {r : Int}
    (h : chanVal p = some r) : 0 ≤ r := by
  unfold chanVal at h
  split at h
  · injection h with h; omega
  · exact pyInt_digits_nonneg hd h

theorem getD_digits {params : List String}
    (hparams : ∀ s ∈ params, ∀ c ∈ s.data, c.isDigit = true) (k : Nat) :
    ∀ c ∈ (params.getD k "").data, c.isDigit = true := by
  by_cases hk : k < params.length
  · exact hparams _ (getD_mem hk "")
  · intro c hc
    rw [List.getD_eq_default _ _ (not_lt.mp hk)] at hc
    simp at hc

theorem chanVal_getD_nonneg {params : List String}
    (hparams : ∀ s ∈ params, ∀ c ∈ s.data, c.isDigit = true) (k : Nat) {r : Int}
    (h : chanVal (params.getD k "") = some r) : 0 ≤ r :=
  chanVal_digits_nonneg (getD_digits hparams k) h

/-- The extended-color block can only produce an absent or non-negative
color index when the parameter list consists of digit strings. -/
theorem extendedColor_NN {params : List String} {code : Int} {old c : Option Int}
    (hparams : ∀ s ∈ params, ∀ cc ∈ s.data, cc.isDigit = true)
    (hold : NNOpt old) (h : extendedColor params code old = .ok c) : NNOpt c := by
  unfold extendedColor at h
  split at h
  · exact absurd h (by simp)
  · rename_i idx hidx
    split at h
    · split at h
      · split at h
        · injection h with h; subst h; exact NNOpt_none
        · split at h
          · rename_i n hn
            injection h with h
            subst h
            intro m hm
            injection hm with hm
            subst hm
            rename_i hguard _
            exact pyInt_digits_nonneg (getD_digits hparams (idx + 2)) hn
          · injection h with h; subst h; exact hold
      · split at h
        · split at h
          · split at h
            · rename_i r g b hr hg hb
              injection h with h
              subst h
              intro m hm
              injection hm with hm
              subst hm
              exact rgb_to_256_nonneg
                (chanVal_getD_nonneg hparams (idx + 2) hr)
                (chanVal_getD_nonneg hparams (idx + 3) hg)
                (chanVal_getD_nonneg hparams (idx + 4) hb)
            · injection h with h
              subst h
              intro m hm
              injection hm with hm
              subst hm
              exact rgb_to_256_nonneg (by norm_num) (by norm_num) (by norm_num)
          · injection h with h; subst h; exact hold
        · injection h with h; subst h; exact hold
    · injection h with h; subst h; exact hold

/-! ## SGR step lemmas -/

theorem sgrApply_frame {params : List String} {st st' : PState} {code : Int}
    (h : sgrApply params st code = .ok st') :
    st'.x = st.x ∧ st'.y = st.y ∧ st'.rows = st.rows ∧
      st'.max_x = st.max_x ∧ st'.max_y = st.max_y := by
  unfold sgrApply at h
  by_cases c0 : code = 0
  · rw [if_pos c0] at h; injection h with h; subst h; exact ⟨rfl, rfl, rfl, rfl, rfl⟩
  · rw [if_neg c0] at h
    by_cases c1 : code = 1
    · rw [if_pos c1] at h; injection h with h; subst h; exact ⟨rfl, rfl, rfl, rfl, rfl⟩
    · rw [if_neg c1] at h
      by_cases c2 : code = 4
      · rw [if_pos c2] at h; injection h with h; subst h; exact ⟨rfl, rfl, rfl, rfl, rfl⟩
      · rw [if_neg c2] at h
        by_cases c3 : code = 7
        · rw [if_pos c3] at h; injection h with h; subst h; exact ⟨rfl, rfl, rfl, rfl, rfl⟩
        · rw [if_neg c3] at h
          by_cases c4 : code = 22
          · rw [if_pos c4] at h; injection h with h; subst h; exact ⟨rfl, rfl, rfl, rfl, rfl⟩
          · rw [if_neg c4] at h
            by_cases c5 : code = 24
            · rw [if_pos c5] at h; injection h with h; subst h; exact ⟨rfl, rfl, rfl, rfl, rfl⟩
            · rw [if_neg c5] at h
              by_cases c6 : code = 27
              · rw [if_pos c6] at h; injection h with h; subst h; exact ⟨rfl, rfl, rfl, rfl, rfl⟩
              · rw [if_neg c6] at h
                by_cases c7 : 30 ≤ code ∧ code ≤ 37
                · rw [if_pos c7] at h; injection h with h; subst h; exact ⟨rfl, rfl, rfl, rfl, rfl⟩
                · rw [if_neg c7] at h
                  by_cases c8 : code = 38
                  · rw [if_pos c8] at h; obtain ⟨c, -, rfl⟩ := except_map_ok h; exact ⟨rfl, rfl, rfl, rfl, rfl⟩
                  · rw [if_neg c8] at h
                    by_cases c9 : code = 39
                    · rw [if_pos c9] at h; injection h with h; subst h; exact ⟨rfl, rfl, rfl, rfl, rfl⟩
                    · rw [if_neg c9] at h
                      by_cases c10 : 40 ≤ code ∧ code ≤ 47
                      · rw [if_pos c10] at h; injection h with h; subst h; exact ⟨rfl, rfl, rfl, rfl, rfl⟩
                      · rw [if_neg c10] at h
                        by_cases c11 : code = 48
                        · rw [if_pos c11] at h; obtain ⟨c, -, rfl⟩ := except_map_ok h; exact ⟨rfl, rfl, rfl, rfl, rfl⟩
                        · rw [if_neg c11] at h
                          by_cases c12 : code = 49
                          · rw [if_pos c12] at h; injection h with h; subst h; exact ⟨rfl, rfl, rfl, rfl, rfl⟩
                          · rw [if_neg c12] at h
                            by_cases c13 : 90 ≤ code ∧ code ≤ 97
                            · rw [if_pos c13] at h; injection h with h; subst h; exact ⟨rfl, rfl, rfl, rfl, rfl⟩
                            · rw [if_neg c13] at h
                              by_cases c14 : 100 ≤ code ∧ code ≤ 107
                              · rw [if_pos c14] at h; injection h with h; subst h; exact ⟨rfl, rfl, rfl, rfl, rfl⟩
                              · rw [if_neg c14] at h
                                injection h with h; subst h; exact ⟨rfl, rfl, rfl, rfl, rfl⟩

theorem sgrApply_NN {params : List String} {st st' : PState} {code : Int}
    (hparams : ∀ s ∈ params, ∀ c ∈ s.data, c.isDigit = true)
    (hfg : NNOpt st.fg_color) (hbg : NNOpt st.bg_color)
    (h : sgrApply params st code = .ok st') :
    NNOpt st'.fg_color ∧ NNOpt st'.bg_color := by
  unfold sgrApply at h
  by_cases c0 : code = 0
  · rw [if_pos c0] at h; injection h with h; subst h; exact ⟨NNOpt_none, NNOpt_none⟩
  · rw [if_neg c0] at h
    by_cases c1 : code = 1
    · rw [if_pos c1] at h; injection h with h; subst h; exact ⟨hfg, hbg⟩
    · rw [if_neg c1] at h
      by_cases c2 : code = 4
      · rw [if_pos c2] at h; injection h with h; subst h; exact ⟨hfg, hbg⟩
      · rw [if_neg c2] at h
        by_cases c3 : code = 7
        · rw [if_pos c3] at h; injection h with h; subst h; exact ⟨hfg, hbg⟩
        · rw [if_neg c3] at h
          by_cases c4 : code = 22
          · rw [if_pos c4] at h; injection h with h; subst h; exact ⟨hfg, hbg⟩
          · rw [if_neg c4] at h
            by_cases c5 : code = 24
            · rw [if_pos c5] at h; injection h with h; subst h; exact ⟨hfg, hbg⟩
            · rw [if_neg c5] at h
              by_cases c6 : code = 27
              · rw [if_pos c6] at h; injection h with h; subst h; exact ⟨hfg, hbg⟩
              · rw [if_neg c6] at h
                by_cases c7 : 30 ≤ code ∧ code ≤ 37
                · rw [if_pos c7] at h; injection h with h; subst h; exact ⟨fun n hn => by injection hn with hn; omega, hbg⟩
                · rw [if_neg c7] at h
                  by_cases c8 : code = 38
                  · rw [if_pos c8] at h; obtain ⟨c, hec, rfl⟩ := except_map_ok h; exact ⟨extendedColor_NN hparams hfg hec, hbg⟩
                  · rw [if_neg c8] at h
                    by_cases c9 : code = 39
                    · rw [if_pos c9] at h; injection h with h; subst h; exact ⟨NNOpt_none, hbg⟩
                    · rw [if_neg c9] at h
                      by_cases c10 : 40 ≤ code ∧ code ≤ 47
                      · rw [if_pos c10] at h; injection h with h; subst h; exact ⟨hfg, fun n hn => by injection hn with hn; omega⟩
                      · rw [if_neg c10] at h
                        by_cases c11 : code = 48
                        · rw [if_pos c11] at h; obtain ⟨c, hec, rfl⟩ := except_map_ok h; exact ⟨hfg, extendedColor_NN hparams hbg hec⟩
                        · rw [if_neg c11] at h
                          by_cases c12 : code = 49
                          · rw [if_pos c12] at h; injection h with h; subst h; exact ⟨hfg, NNOpt_none⟩
                          · rw [if_neg c12] at h
                            by_cases c13 : 90 ≤ code ∧ code ≤ 97
                            · rw [if_pos c13] at h; injection h with h; subst h; exact ⟨fun n hn => by injection hn with hn; omega, hbg⟩
                            · rw [if_neg c13] at h
                              by_cases c14 : 100 ≤ code ∧ code ≤ 107
                              · rw [if_pos c14] at h; injection h with h; subst h; exact ⟨hfg, fun n hn => by injection hn with hn; omega⟩
                              · rw [if_neg c14] at h
                                injection h with h; subst h; exact ⟨hfg, hbg⟩

theorem sgrStep_frame {params : List String} {st st' : PState} {p : String}
    (h : sgrStep params st p = .ok st') :
    st'.x = st.x ∧ st'.y = st.y ∧ st'.rows = st.rows ∧
      st'.max_x = st.max_x ∧ st'.max_y = st.max_y := by
  unfold sgrStep at h
  split at h
  · injection h with h; subst h; exact ⟨rfl, rfl, rfl, rfl, rfl⟩
  · exact sgrApply_frame h

theorem sgrStep_NN {params : List String} {st st' : PState} {p : String}
    (hparams : ∀ s ∈ params, ∀ c ∈ s.data, c.isDigit = true)
    (hfg : NNOpt st.fg_color) (hbg : NNOpt st.bg_color)
    (h : sgrStep params st p = .ok st') :
    NNOpt st'.fg_color ∧ NNOpt st'.bg_color := by
  unfold sgrStep at h
  split at h
  · injection h with h; subst h; exact ⟨hfg, hbg⟩
  · exact sgrApply_NN hparams hfg hbg h

theorem foldl_sgr_frame {params : List String} :
    ∀ (l : List String) (st st' : PState),
      List.foldlM (sgrStep params) st l = .ok st' →
      st'.x = st.x ∧ st'.y = st.y ∧ st'.rows = st.rows ∧
        st'.max_x = st.max_x ∧ st'.max_y = st.max_y := by
  intro l
  induction l with
  | nil =>
    intro st st' h
    simp only [List.foldlM_nil] at h
    injection h with h
    subst h
    exact ⟨rfl, rfl, rfl, rfl, rfl⟩
  | cons a l ih =>
    intro st st' h
    rw [List.foldlM_cons] at h
    cases hs : sgrStep params st a with
    | error e =>
      rw [hs] at h
      simp only [Bind.bind, Except.bind] at h
      exact absurd h (by simp)
    | ok st1 =>
      rw [hs] at h
      simp only [Bind.bind, Except.bind] at h
      obtain ⟨e1, e2, e3, e4, e5⟩ := sgrStep_frame hs
      obtain ⟨f1, f2, f3, f4, f5⟩ := ih st1 st' h
      exact ⟨f1.trans e1, f2.trans e2, f3.trans e3, f4.trans e4, f5.trans e5⟩

theorem handle_sgr_frame {params : List String} {st st' : PState}
    (h : handle_sgr params st = .ok st') :
    st'.x = st.x ∧ st'.y = st.y ∧ st'.rows = st.rows ∧
      st'.max_x = st.max_x ∧ st'.max_y = st.max_y :=
  foldl_sgr_frame params st st' h

theorem foldl_sgr_NN {params : List String}
    (hparams : ∀ s ∈ params, ∀ c ∈ s.data, c.isDigit = true) :
    ∀ (l : List String) (st st' : PState),
      NNOpt st.fg_color → NNOpt st.bg_color →
      List.foldlM (sgrStep params) st l = .ok st' →
      NNOpt st'.fg_color ∧ NNOpt st'.bg_color := by
  intro l
  induction l with
  | nil =>
    intro st st' hfg hbg h
    simp only [List.foldlM_nil] at h
    injection h with h
    subst h
    exact ⟨hfg, hbg⟩
  | cons a l ih =>
    intro st st' hfg hbg h
    rw [List.foldlM_cons] at h
    cases hs : sgrStep params st a with
    | error e =>
      rw [hs] at h
      simp only [Bind.bind, Except.bind] at h
      exact absurd h (by simp)
    | ok st1 =>
      rw [hs] at h
      simp only [Bind.bind, Except.bind] at h
      obtain ⟨g1, g2⟩ := sgrStep_NN hparams hfg hbg hs
      exact ih st1 st' g1 g2 h

theorem handle_sgr_NN {params : List String} {st st' : PState}
    (hparams : ∀ s ∈ params, ∀ c ∈ s.data, c.isDigit = true)
    (hfg : NNOpt st.fg_color) (hbg : NNOpt st.bg_color)
    (h : handle_sgr params st = .ok st') :
    NNOpt st'.fg_color ∧ NNOpt st'.bg_color :=
  foldl_sgr_NN hparams params st st' hfg hbg h


/-! ## Escape-sequence dispatch lemmas -/

theorem relMove_cases {params : List String} {st st' : PState} {f : PState → Int → PState}
    (h : relMove params st f = .ok st') :
    st' = st ∨ (st' = f st 1 ∧ params.getD 0 "" = "") ∨
      ∃ n, st' = f st n ∧ pyInt (params.getD 0 "") = some n := by
  unfold relMove at h
  split at h
  · exact absurd h (by simp)
  · rename_i p0 ps
    split at h
    · rename_i n hn
      injection h with h
      subst h
      split at hn
      · rename_i hp0
        injection hn with hn
        subst hn
        exact Or.inr (Or.inl ⟨rfl, by simp [hp0]⟩)
      · exact Or.inr (Or.inr ⟨n, rfl, by simpa using hn⟩)
    · injection h with h; subst h; exact Or.inl rfl

theorem cursorPos_rowsmax (params : List String) (st : PState) :
    (cursorPos params st).rows = st.rows ∧ (cursorPos params st).max_x = st.max_x ∧
      (cursorPos params st).max_y = st.max_y := by
  unfold cursorPos
  split
  · exact ⟨rfl, rfl, rfl⟩
  · split
    · exact ⟨rfl, rfl, rfl⟩
    · exact ⟨rfl, rfl, rfl⟩

theorem cursorPos_attr (params : List String) (st : PState) :
    (cursorPos params st).fg_color = st.fg_color ∧
      (cursorPos params st).bg_color = st.bg_color ∧
      (cursorPos params st).bold = st.bold ∧
      (cursorPos params st).underline = st.underline ∧
      (cursorPos params st).reverse = st.reverse := by
  unfold cursorPos
  split
  · exact ⟨rfl, rfl, rfl, rfl, rfl⟩
  · split
    · exact ⟨rfl, rfl, rfl, rfl, rfl⟩
    · exact ⟨rfl, rfl, rfl, rfl, rfl⟩

theorem cursorPos_nonneg (params : List String) (st : PState)
    (hx : 0 ≤ st.x) (hy : 0 ≤ st.y) :
    0 ≤ (cursorPos params st).x ∧ 0 ≤ (cursorPos params st).y := by
  unfold cursorPos
  split
  · exact ⟨hx, hy⟩
  · split
    · exact ⟨le_max_left 0 _, le_max_left 0 _⟩
    · exact ⟨hx, hy⟩

/-- `handle_escape_sequence` never touches the emitted rows or the maxima. -/
theorem handle_escape_rowsmax {params : List String} {cmd : Char} {st st' : PState}
    (h : handle_escape_sequence params cmd st = .ok st') :
    st'.rows = st.rows ∧ st'.max_x = st.max_x ∧ st'.max_y = st.max_y := by
  unfold handle_escape_sequence at h
  by_cases e0 : cmd = 'm'
  · rw [if_pos e0] at h
    obtain ⟨-, -, h3, h4, h5⟩ := handle_sgr_frame h
    exact ⟨h3, h4, h5⟩
  · rw [if_neg e0] at h
    by_cases e1 : cmd = 'H' ∨ cmd = 'f'
    · rw [if_pos e1] at h
      injection h with h
      subst h
      exact cursorPos_rowsmax params st
    · rw [if_neg e1] at h
      by_cases e2 : cmd = 'J'
      · rw [if_pos e2] at h
        injection h with h
        subst h
        split
        · exact ⟨rfl, rfl, rfl⟩
        · exact ⟨rfl, rfl, rfl⟩
      · rw [if_neg e2] at h
        by_cases e3 : cmd = 'C'
        · rw [if_pos e3] at h
          rcases relMove_cases h with rfl | ⟨rfl, -⟩ | ⟨n, rfl, -⟩ <;> exact ⟨rfl, rfl, rfl⟩
        · rw [if_neg e3] at h
          by_cases e4 : cmd = 'D'
          · rw [if_pos e4] at h
            rcases relMove_cases h with rfl | ⟨rfl, -⟩ | ⟨n, rfl, -⟩ <;> exact ⟨rfl, rfl, rfl⟩
          · rw [if_neg e4] at h
            by_cases e5 : cmd = 'A'
            · rw [if_pos e5] at h
              rcases relMove_cases h with rfl | ⟨rfl, -⟩ | ⟨n, rfl, -⟩ <;> exact ⟨rfl, rfl, rfl⟩
            · rw [if_neg e5] at h
              by_cases e6 : cmd = 'B'
              · rw [if_pos e6] at h
                rcases relMove_cases h with rfl | ⟨rfl, -⟩ | ⟨n, rfl, -⟩ <;> exact ⟨rfl, rfl, rfl⟩
              · rw [if_neg e6] at h
                injection h with h
                subst h
                exact ⟨rfl, rfl, rfl⟩

/-- With digit-string parameters, escape handling preserves the
absent-or-non-negative color invariant. -/
theorem handle_escape_NN {params : List String} {cmd : Char} {st st' : PState}
    (hparams : ∀ s ∈ params, ∀ c ∈ s.data, c.isDigit = true)
    (hfg : NNOpt st.fg_color) (hbg : NNOpt st.bg_color)
    (h : handle_escape_sequence params cmd st = .ok st') :
    NNOpt st'.fg_color ∧ NNOpt st'.bg_color := by
  unfold handle_escape_sequence at h
  by_cases e0 : cmd = 'm'
  · rw [if_pos e0] at h
    exact handle_sgr_NN hparams hfg hbg h
  · rw [if_neg e0] at h
    by_cases e1 : cmd = 'H' ∨ cmd = 'f'
    · rw [if_pos e1] at h
      injection h with h
      subst h
      obtain ⟨a1, a2, -⟩ := cursorPos_attr params st
      rw [a1, a2]
      exact ⟨hfg, hbg⟩
    · rw [if_neg e1] at h
      by_cases e2 : cmd = 'J'
      · rw [if_pos e2] at h
        injection h with h
        subst h
        split
        · exact ⟨hfg, hbg⟩
        · exact ⟨hfg, hbg⟩
      · rw [if_neg e2] at h
        by_cases e3 : cmd = 'C'
        · rw [if_pos e3] at h
          rcases relMove_cases h with rfl | ⟨rfl, -⟩ | ⟨n, rfl, -⟩ <;> exact ⟨hfg, hbg⟩
        · rw [if_neg e3] at h
          by_cases e4 : cmd = 'D'
          · rw [if_pos e4] at h
            rcases relMove_cases h with rfl | ⟨rfl, -⟩ | ⟨n, rfl, -⟩ <;> exact ⟨hfg, hbg⟩
          · rw [if_neg e4] at h
            by_cases e5 : cmd = 'A'
            · rw [if_pos e5] at h
              rcases relMove_cases h with rfl | ⟨rfl, -⟩ | ⟨n, rfl, -⟩ <;> exact ⟨hfg, hbg⟩
            · rw [if_neg e5] at h
              by_cases e6 : cmd = 'B'
              · rw [if_pos e6] at h
                rcases relMove_cases h with rfl | ⟨rfl, -⟩ | ⟨n, rfl, -⟩ <;> exact ⟨hfg, hbg⟩
              · rw [if_neg e6] at h
                injection h with h
                subst h
                exact ⟨hfg, hbg⟩

/-- With digit-string parameters, escape handling keeps the cursor
coordinates non-negative (the source clamps with `max(0, ...)` and only ever
adds non-negative amounts). -/
theorem handle_escape_xy {params : List String} {cmd : Char} {st st' : PState}
    (hparams : ∀ s ∈ params, ∀ c ∈ s.data, c.isDigit = true)
    (hx : 0 ≤ st.x) (hy : 0 ≤ st.y)
    (h : handle_escape_sequence params cmd st = .ok st') :
    0 ≤ st'.x ∧ 0 ≤ st'.y := by
  unfold handle_escape_sequence at h
  by_cases e0 : cmd = 'm'
  · rw [if_pos e0] at h
    obtain ⟨h1, h2, -⟩ := handle_sgr_frame h
    rw [h1, h2]
    exact ⟨hx, hy⟩
  · rw [if_neg e0] at h
    by_cases e1 : cmd = 'H' ∨ cmd = 'f'
    · rw [if_pos e1] at h
      injection h with h
      subst h
      exact cursorPos_nonneg params st hx hy
    · rw [if_neg e1] at h
      by_cases e2 : cmd = 'J'
      · rw [if_pos e2] at h
        injection h with h
        subst h
        split
        · exact ⟨le_refl 0, le_refl 0⟩
        · exact ⟨hx, hy⟩
      · rw [if_neg e2] at h
        by_cases e3 : cmd = 'C'
        · rw [if_pos e3] at h
          rcases relMove_cases h with rfl | ⟨rfl, -⟩ | ⟨n, rfl, hn⟩
          · exact ⟨hx, hy⟩
          · exact ⟨by simpa using by omega, hy⟩
          · have := pyInt_digits_nonneg (getD_digits hparams 0) hn
            exact ⟨by simp only; omega, hy⟩
        · rw [if_neg e3] at h
          by_cases e4 : cmd = 'D'
          · rw [if_pos e4] at h
            rcases relMove_cases h with rfl | ⟨rfl, -⟩ | ⟨n, rfl, hn⟩
            · exact ⟨hx, hy⟩
            · exact ⟨le_max_left 0 _, hy⟩
            · exact ⟨le_max_left 0 _, hy⟩
          · rw [if_neg e4] at h
            by_cases e5 : cmd = 'A'
            · rw [if_pos e5] at h
              rcases relMove_cases h with rfl | ⟨rfl, -⟩ | ⟨n, rfl, hn⟩
              · exact ⟨hx, hy⟩
              · exact ⟨hx, le_max_left 0 _⟩
              · exact ⟨hx, le_max_left 0 _⟩
            · rw [if_neg e5] at h
              by_cases e6 : cmd = 'B'
              · rw [if_pos e6] at h
                rcases relMove_cases h with rfl | ⟨rfl, -⟩ | ⟨n, rfl, hn⟩
                · exact ⟨hx, hy⟩
                · exact ⟨hx, by simp only; omega⟩
                · have := pyInt_digits_nonneg (getD_digits hparams 0) hn
                  exact ⟨hx, by simp only; omega⟩
              · rw [if_neg e6] at h
                injection h with h
                subst h
                exact ⟨hx, hy⟩

/-! ## Emission tracking -/

theorem foldMax_append (l : List Int) (a : Int) :
    foldMax (l ++ [a]) = max (foldMax l) a := by
  simp [foldMax, List.foldl_append]

theorem add_character_fields (ch : Char) (st : PState) :
    (add_character ch st).rows = st.rows ++
      [{ type := "", x := st.x, y := st.y, text := ch,
         color := color_descriptor st.bold st.underline
           (if st.reverse then (st.bg_color, st.fg_color)
            else (st.fg_color, st.bg_color)).1
           (if st.reverse then (st.bg_color, st.fg_color)
            else (st.fg_color, st.bg_color)).2,
         tags := [] }] ∧
    (add_character ch st).max_x = max st.max_x st.x ∧
    (add_character ch st).max_y = max st.max_y st.y ∧
    (add_character ch st).x = st.x ∧ (add_character ch st).y = st.y ∧
    (add_character ch st).fg_color = st.fg_color ∧
    (add_character ch st).bg_color = st.bg_color ∧
    (add_character ch st).bold = st.bold ∧
    (add_character ch st).underline = st.underline ∧
    (add_character ch st).reverse = st.reverse :=
  ⟨rfl, rfl, rfl, rfl, rfl, rfl, rfl, rfl, rfl, rfl⟩

theorem literalStep_track {ch : Char} {st : PState} (h : TrackInv st) :
    TrackInv (literalStep ch st) := by
  obtain ⟨h1, h2, h3, h4, h5⟩ := h
  unfold literalStep
  split
  · exact ⟨h1, h2, le_refl 0, by show 0 ≤ st.y + 1; omega, h5⟩
  · split
    · exact ⟨h1, h2, le_refl 0, h4, h5⟩
    · split
      · split
        · refine ⟨?_, ?_, ?_, ?_, ?_⟩
          · show (add_character ch st).max_x = foldMax ((add_character ch st).rows.map Row.x)
            rw [(add_character_fields ch st).1, (add_character_fields ch st).2.1]
            simp only [List.map_append, List.map_cons, List.map_nil, foldMax_append]
            rw [h1]
          · show (add_character ch st).max_y = foldMax ((add_character ch st).rows.map Row.y)
            rw [(add_character_fields ch st).1, (add_character_fields ch st).2.2.1]
            simp only [List.map_append, List.map_cons, List.map_nil, foldMax_append]
            rw [h2]
          · show 0 ≤ (add_character ch st).x + 1
            rw [(add_character_fields ch st).2.2.2.1]
            omega
          · show 0 ≤ (add_character ch st).y
            rw [(add_character_fields ch st).2.2.2.2.1]
            exact h4
          · intro r hr
            have : r ∈ (add_character ch st).rows := hr
            rw [(add_character_fields ch st).1] at this
            rcases List.mem_append.mp this with hold | hnew
            · exact h5 r hold
            · rcases List.mem_singleton.mp hnew with rfl
              exact ⟨h3, h4⟩
        · exact ⟨h1, h2, h3, h4, h5⟩
      · exact ⟨h1, h2, h3, h4, h5⟩

theorem literalStep_attr (ch : Char) (st : PState) :
    (literalStep ch st).fg_color = st.fg_color ∧
      (literalStep ch st).bg_color = st.bg_color := by
  unfold literalStep
  split
  · exact ⟨rfl, rfl⟩
  · split
    · exact ⟨rfl, rfl⟩
    · split
      · split
        · exact ⟨(add_character_fields ch st).2.2.2.2.2.1,
                 (add_character_fields ch st).2.2.2.2.2.2.1⟩
        · exact ⟨rfl, rfl⟩
      · exact ⟨rfl, rfl⟩

/-! ## Parse-wide invariants -/

theorem parse_track :
    ∀ (fuel : Nat) (cs : List Char) (st st' : PState),
      TrackInv st → parseLoopF st fuel cs = .ok st' → TrackInv st' := by
  refine parseLoopF_inv TrackInv (fun ch st h => literalStep_track h) ?_
  intro params cmd st st' hdig hP he
  obtain ⟨h1, h2, h3, h4, h5⟩ := hP
  obtain ⟨r1, r2, r3⟩ := handle_escape_rowsmax he
  obtain ⟨x1, x2⟩ := handle_escape_xy hdig h3 h4 he
  refine ⟨?_, ?_, x1, x2, ?_⟩
  · rw [r1, r2, h1]
  · rw [r1, r3, h2]
  · intro r hr
    rw [r1] at hr
    exact h5 r hr

theorem parse_NN :
    ∀ (fuel : Nat) (cs : List Char) (st st' : PState),
      (NNOpt st.fg_color ∧ NNOpt st.bg_color) → parseLoopF st fuel cs = .ok st' →
      NNOpt st'.fg_color ∧ NNOpt st'.bg_color := by
  refine parseLoopF_inv (fun st => NNOpt st.fg_color ∧ NNOpt st.bg_color) ?_ ?_
  · intro ch st h
    obtain ⟨a1, a2⟩ := literalStep_attr ch st
    rw [a1, a2]
    exact h
  · intro params cmd st st' hdig hP he
    exact handle_escape_NN hdig hP.1 hP.2 he

/-! ## The extended-color lookup always reads after the first occurrence -/

theorem extendedColor_mode5 {params : List String} {idx : Nat} {old : Option Int} {n : Int}
    (hidx : pyIndex "38" params = some idx)
    (h5 : params.getD (idx + 1) "" = "5")
    (hlen : idx + 2 < params.length)
    (hne : params.getD (idx + 2) "" ≠ "")
    (hn : pyInt (params.getD (idx + 2) "") = some n) :
    extendedColor params 38 old = .ok (some n) := by
  unfold extendedColor
  rw [show toString (38 : Int) = "38" from rfl, hidx]
  show (if idx + 1 < params.length then _ else _) = _
  rw [if_pos (by omega)]
  rw [if_pos ⟨h5, hlen⟩, if_neg hne, hn]

theorem extendedColor_mode2_short (code : Int) {params : List String} {idx : Nat}
    {old : Option Int}
    (hidx : pyIndex (toString code) params = some idx)
    (h2 : params.getD (idx + 1) "" = "2")
    (hshort : ¬ idx + 4 < params.length) :
    extendedColor params code old = .ok old := by
  have hlen1 : idx + 1 < params.length := by
    by_contra hc
    rw [List.getD_eq_default _ _ (not_lt.mp hc)] at h2
    exact absurd h2 (by decide)
  unfold extendedColor
  rw [hidx]
  show (if idx + 1 < params.length then _ else _) = _
  rw [if_pos hlen1]
  rw [if_neg (by rw [h2]; simp), if_pos h2, if_neg hshort]

theorem extendedColor_mode2 (code : Int) {params : List String} {idx : Nat}
    {old : Option Int}
    (hidx : pyIndex (toString code) params = some idx)
    (h2 : params.getD (idx + 1) "" = "2")
    (hlen : idx + 4 < params.length) :
    (∀ r g b : Int,
      chanVal (params.getD (idx + 2) "") = some r →
      chanVal (params.getD (idx + 3) "") = some g →
      chanVal (params.getD (idx + 4) "") = some b →
      extendedColor params code old = .ok (some (rgb_to_256 r g b))) ∧
    ((chanVal (params.getD (idx + 2) "") = none ∨
      chanVal (params.getD (idx + 3) "") = none ∨
      chanVal (params.getD (idx + 4) "") = none) →
      extendedColor params code old = .ok (some (rgb_to_256 153 153 153))) := by
  have hred : extendedColor params code old =
      (match chanVal (params.getD (idx + 2) ""), chanVal (params.getD (idx + 3) ""),
          chanVal (params.getD (idx + 4) "") with
        | some r, some g, some b => .ok (some (rgb_to_256 r g b))
        | _, _, _ => .ok (some (rgb_to_256 153 153 153))) := by
    unfold extendedColor
    rw [hidx]
    show (if idx + 1 < params.length then _ else _) = _
    rw [if_pos (by omega)]
    rw [if_neg (by rw [h2]; simp), if_pos h2, if_pos hlen]
  constructor
  · intro r g b hr hg hb
    rw [hred, hr, hg, hb]
  · intro hone
    rw [hred]
    rcases hA : chanVal (params.getD (idx + 2) "") with _ | r <;>
      rcases hB : chanVal (params.getD (idx + 3) "") with _ | g <;>
        rcases hC : chanVal (params.getD (idx + 4) "") with _ | b <;>
          try rfl
    rcases hone with hx | hx | hx
    · rw [hx] at hA; exact absurd hA (by simp)
    · rw [hx] at hB; exact absurd hB (by simp)
    · rw [hx] at hC; exact absurd hC (by simp)

/-- Processing the literal parameter `"38"` always dispatches to the
extended-color lookup on the current foreground. -/
theorem sgrStep_38 (params : List String) (st : PState) :
    sgrStep params st "38" =
      (extendedColor params 38 st.fg_color).map (fun c => { st with fg_color := c }) := by
  show sgrApply params st 38 = _
  unfold sgrApply
  rw [if_neg (by decide : ¬(38 : Int) = 0), if_neg (by decide : ¬(38 : Int) = 1),
    if_neg (by decide : ¬(38 : Int) = 4), if_neg (by decide : ¬(38 : Int) = 7),
    if_neg (by decide : ¬(38 : Int) = 22), if_neg (by decide : ¬(38 : Int) = 24),
    if_neg (by decide : ¬(38 : Int) = 27),
    if_neg (by decide : ¬(30 ≤ (38 : Int) ∧ (38 : Int) ≤ 37)),
    if_pos (rfl : (38 : Int) = 38)]

/-- Processing the literal parameter `"48"` always dispatches to the
extended-color lookup on the current background. -/
theorem sgrStep_48 (params : List String) (st : PState) :
    sgrStep params st "48" =
      (extendedColor params 48 st.bg_color).map (fun c => { st with bg_color := c }) := by
  show sgrApply params st 48 = _
  unfold sgrApply
  rw [if_neg (by decide : ¬(48 : Int) = 0), if_neg (by decide : ¬(48 : Int) = 1),
    if_neg (by decide : ¬(48 : Int) = 4), if_neg (by decide : ¬(48 : Int) = 7),
    if_neg (by decide : ¬(48 : Int) = 22), if_neg (by decide : ¬(48 : Int) = 24),
    if_neg (by decide : ¬(48 : Int) = 27),
    if_neg (by decide : ¬(30 ≤ (48 : Int) ∧ (48 : Int) ≤ 37)),
    if_neg (by decide : ¬(48 : Int) = 38), if_neg (by decide : ¬(48 : Int) = 39),
    if_neg (by decide : ¬(40 ≤ (48 : Int) ∧ (48 : Int) ≤ 47)),
    if_pos (rfl : (48 : Int) = 48)]

/-! ## The claims -/

/-- Claim C1: the spec requires that parsing never raises for any input, but
the code raises an uncaught `ValueError` from `params.index(str(code))` in
`handle_sgr` whenever an SGR parameter parses to 38 (or 48) without being
literally `'38'` (resp. `'48'`): on input `"\x1b[038m"` the parameter `'038'`
parses to code 38, `params.index('38')` raises, and the exception propagates
out of `parse`.  This theorem evaluates the embedded code at that failing
input. -/
theorem claim_C1_parse_raises_on_leading_zero_sgr :
    parse "\x1b[038m".data = .error () := by rfl

/-- Claim C2: the spec-modelled `width`/`height` of the parse result equal
one plus the maximum x (resp. y) over all emitted cells, or 0 if no cells
were emitted, and the code's tracked `max_x`/`max_y` (updated only inside
`add_character`) equal the maxima over the emitted rows — so cursor-only
movements contribute nothing to the bounds. -/
theorem claim_C2_width_height :
    ∀ (cs : List Char) (st' : PState), parseState cs = .ok st' →
      st'.max_x = foldMax (st'.rows.map Row.x) ∧
      st'.max_y = foldMax (st'.rows.map Row.y) ∧
      (∀ r ∈ st'.rows, 0 ≤ r.x ∧ 0 ≤ r.y) ∧
      (st'.rows = [] → resultWidth st'.rows = 0 ∧ resultHeight st'.rows = 0) ∧
      (st'.rows ≠ [] → resultWidth st'.rows = 1 + st'.max_x ∧
        resultHeight st'.rows = 1 + st'.max_y) := by
  intro cs st' h
  have htrack : TrackInv st' :=
    parse_track cs.length cs initState st'
      ⟨rfl, rfl, le_refl 0, le_refl 0, by intro r hr; simp [initState] at hr⟩ h
  obtain ⟨t1, t2, -, -, t5⟩ := htrack
  refine ⟨t1, t2, t5, ?_, ?_⟩
  · intro he
    unfold resultWidth resultHeight
    rw [if_pos he, if_pos he]
    exact ⟨rfl, rfl⟩
  · intro hne
    unfold resultWidth resultHeight
    rw [if_neg hne, if_neg hne, t1, t2]
    exact ⟨rfl, rfl⟩

/-- Claim C2 witness: parsing the single character `A` emits one cell at
(0,0); the spec-modelled width and height of that result are both 1. -/
theorem claim_C2_width_height_witness :
    resultWidth [{ type := "", x := 0, y := 0, text := 'A', color := "", tags := [] }] = 1 ∧
    resultHeight [{ type := "", x := 0, y := 0, text := 'A', color := "", tags := [] }] = 1 := by
  have h := claim_C2_width_height ['A']
    { x := 1, y := 0, fg_color := none, bg_color := none, bold := false,
      underline := false, reverse := false,
      rows := [{ type := "", x := 0, y := 0, text := 'A', color := "", tags := [] }],
      max_x := 0, max_y := 0 } (by rfl)
  obtain ⟨-, -, -, -, h5⟩ := h
  obtain ⟨w, hgt⟩ := h5 (by simp)
  exact ⟨w, hgt⟩

/-- Claim C3 counterexample: the bell character (code point 7) is consumed
by the literal-character branch and is none of newline, carriage return or
escape, yet the cursor column is NOT incremented: the `x += 1` of the source
sits inside the `if ord(ch) >= 32 or ch in '\t'` block, so silently dropped
control characters do not advance the column, contradicting the claim. -/
theorem claim_C3_column_cex :
    ('\x07' ≠ '\n' ∧ '\x07' ≠ '\r' ∧ '\x07' ≠ '\x1b') ∧
    (literalStep '\x07' initState).x = 0 ∧
    ¬ (literalStep '\x07' initState).x = initState.x + 1 := by decide

/-- Claim C3 (amended): in the literal-character branch, for a character
that is not newline, carriage return or escape, the column is incremented
by exactly 1 when the character is emitted (tab or code point ≥ 32) and is
left unchanged when the character is a dropped control character. -/
theorem claim_C3_column_amended :
    ∀ (ch : Char) (st : PState), ch ≠ '\n' → ch ≠ '\r' → ch ≠ '\x1b' →
      (literalStep ch st).x =
        if 32 ≤ ch.toNat ∨ ch = '\t' then st.x + 1 else st.x := by
  intro ch st h1 h2 h3
  unfold literalStep
  rw [if_neg h1, if_neg h2, if_pos h3]
  split
  · show (add_character ch st).x + 1 = st.x + 1
    rw [(add_character_fields ch st).2.2.2.1]
  · rfl

/-- Claim C3 witness: the printable character `A` advances the column. -/
theorem claim_C3_column_witness :
    (literalStep 'A' initState).x =
      if 32 ≤ 'A'.toNat ∨ 'A' = '\t' then initState.x + 1 else initState.x :=
  claim_C3_column_amended 'A' initState (by decide) (by decide) (by decide)

/-- Claim C4 counterexample: the extended 256-color form stores the parsed
integer without any range check, so `ESC[38;5;999m` leaves the parser with
foreground 999, violating the claimed 0-255 invariant. -/
theorem claim_C4_range_cex :
    parseState "\x1b[38;5;999m".data = .ok { initState with fg_color := some 999 } ∧
    ¬ ((999 : Int) ≤ 255) := ⟨by rfl, by decide⟩

/-- Claim C4 (amended): at every point during a parse the foreground and
background fields are each either absent or a NON-NEGATIVE integer (the
upper bound 255 is not enforced: `38;5;n` stores any parsed `n`).  The
invariant is preserved by the scan loop from any state satisfying it. -/
theorem claim_C4_range_amended :
    ∀ (fuel : Nat) (cs : List Char) (st st' : PState),
      NNOpt st.fg_color → NNOpt st.bg_color →
      parseLoopF st fuel cs = .ok st' →
      NNOpt st'.fg_color ∧ NNOpt st'.bg_color :=
  fun fuel cs st st' hfg hbg h => parse_NN fuel cs st st' ⟨hfg, hbg⟩ h

/-- Claim C4 witness: parsing `ESC[31m` from the initial state yields
foreground 1, and the non-negativity invariant holds for the result. -/
theorem claim_C4_range_witness :
    NNOpt ({ initState with fg_color := some 1 } : PState).fg_color ∧
    NNOpt ({ initState with fg_color := some 1 } : PState).bg_color :=
  claim_C4_range_amended 5 "\x1b[31m".data initState
    { initState with fg_color := some 1 } NNOpt_none NNOpt_none (by rfl)

/-- Claim C5 counterexample: a `38;2` (resp. `48;2`) truecolor form with
fewer than three following parameters does NOT set the color using 153 for
the missing channels — the guard `idx + 4 < len(params)` makes the whole
assignment a no-op, so `handle_sgr(['38','2','10'])` leaves the foreground
unset instead of setting it to `rgb_to_256(10, 153, 153)`, and
`handle_sgr(['48','2','10'])` likewise leaves the background unset. -/
theorem claim_C5_truecolor_cex :
    (handle_sgr ["38", "2", "10"] initState = .ok initState ∧
     initState.fg_color ≠ some (rgb_to_256 10 153 153)) ∧
    (handle_sgr ["48", "2", "10"] initState = .ok initState ∧
     initState.bg_color ≠ some (rgb_to_256 10 153 153)) :=
  ⟨⟨by rfl, by decide⟩, ⟨by rfl, by decide⟩⟩

/-- Claim C5 (amended): when processing the parameter `"38"` (resp. `"48"`)
with the first occurrence of `'38'` (resp. `'48'`) followed by `'2'`: if
fewer than three parameter slots follow the `'2'`, the foreground (resp.
background) is left unchanged; otherwise the three channels are read with an
empty slot defaulting to 153 individually, but if any present channel is
unparseable ALL three default to 153 (one bad channel does affect the
others).  Both the foreground (38) and background (48) halves are stated. -/
theorem claim_C5_truecolor_amended :
    ∀ (params : List String) (st : PState) (idx : Nat),
      (pyIndex "38" params = some idx →
       params.getD (idx + 1) "" = "2" →
       ((¬ idx + 4 < params.length → sgrStep params st "38" = .ok st) ∧
        (idx + 4 < params.length →
          (∀ r g b : Int,
            chanVal (params.getD (idx + 2) "") = some r →
            chanVal (params.getD (idx + 3) "") = some g →
            chanVal (params.getD (idx + 4) "") = some b →
            sgrStep params st "38" =
              .ok { st with fg_color := some (rgb_to_256 r g b) }) ∧
          ((chanVal (params.getD (idx + 2) "") = none ∨
            chanVal (params.getD (idx + 3) "") = none ∨
            chanVal (params.getD (idx + 4) "") = none) →
            sgrStep params st "38" =
              .ok { st with fg_color := some (rgb_to_256 153 153 153) })))) ∧
      (pyIndex "48" params = some idx →
       params.getD (idx + 1) "" = "2" →
       ((¬ idx + 4 < params.length → sgrStep params st "48" = .ok st) ∧
        (idx + 4 < params.length →
          (∀ r g b : Int,
            chanVal (params.getD (idx + 2) "") = some r →
            chanVal (params.getD (idx + 3) "") = some g →
            chanVal (params.getD (idx + 4) "") = some b →
            sgrStep params st "48" =
              .ok { st with bg_color := some (rgb_to_256 r g b) }) ∧
          ((chanVal (params.getD (idx + 2) "") = none ∨
            chanVal (params.getD (idx + 3) "") = none ∨
            chanVal (params.getD (idx + 4) "") = none) →
            sgrStep params st "48" =
              .ok { st with bg_color := some (rgb_to_256 153 153 153) })))) := by
  intro params st idx
  constructor
  · intro hidx h2
    refine ⟨?_, fun hlen => ⟨?_, ?_⟩⟩
    · intro hshort
      rw [sgrStep_38, extendedColor_mode2_short 38 hidx h2 hshort]
      rfl
    · intro r g b hr hg hb
      rw [sgrStep_38, (extendedColor_mode2 38 hidx h2 hlen).1 r g b hr hg hb]
      rfl
    · intro hone
      rw [sgrStep_38, (extendedColor_mode2 38 hidx h2 hlen).2 hone]
      rfl
  · intro hidx h2
    refine ⟨?_, fun hlen => ⟨?_, ?_⟩⟩
    · intro hshort
      rw [sgrStep_48, extendedColor_mode2_short 48 hidx h2 hshort]
      rfl
    · intro r g b hr hg hb
      rw [sgrStep_48, (extendedColor_mode2 48 hidx h2 hlen).1 r g b hr hg hb]
      rfl
    · intro hone
      rw [sgrStep_48, (extendedColor_mode2 48 hidx h2 hlen).2 hone]
      rfl

/-- Claim C5 witness: `['38','2','10']` and `['48','2','10']` each have only
one channel slot after the mode selector, so processing `"38"` (resp.
`"48"`) leaves the state unchanged. -/
theorem claim_C5_truecolor_witness :
    sgrStep ["38", "2", "10"] initState "38" = .ok initState ∧
    sgrStep ["48", "2", "10"] initState "48" = .ok initState :=
  ⟨((claim_C5_truecolor_amended ["38", "2", "10"] initState 0).1
      (by rfl) (by rfl)).1 (by decide),
   ((claim_C5_truecolor_amended ["48", "2", "10"] initState 0).2
      (by rfl) (by rfl)).1 (by decide)⟩

/-- Claim C6 counterexample: in `['38','1','38','5','4']` the second
occurrence of `'38'` is immediately followed by `'5'` and the parseable
index 4, yet the foreground is never set: `params.index('38')` always finds
the FIRST occurrence (whose successor is `'1'`), so the extended form is a
no-op and the trailing `'1'`, `'4'` only set bold and underline. -/
theorem claim_C6_first_occurrence_cex :
    handle_sgr ["38", "1", "38", "5", "4"] initState =
      .ok { initState with bold := true, underline := true } ∧
    ({ initState with bold := true, underline := true } : PState).fg_color ≠ some 4 :=
  ⟨by rfl, by decide⟩

/-- Claim C6 (amended): the sub-parameters inspected when processing an SGR
code 38 are those immediately following the FIRST occurrence of the literal
string `'38'` in the parameter list (not the occurrence being processed):
whenever that first occurrence is followed by `'5'` and a non-empty
parseable index `n`, processing the parameter `"38"` sets the foreground to
`n`. -/
theorem claim_C6_first_occurrence_amended :
    ∀ (params : List String) (st : PState) (idx : Nat) (n : Int),
      pyIndex "38" params = some idx →
      params.getD (idx + 1) "" = "5" →
      idx + 2 < params.length →
      params.getD (idx + 2) "" ≠ "" →
      pyInt (params.getD (idx + 2) "") = some n →
      sgrStep params st "38" = .ok { st with fg_color := some n } := by
  intro params st idx n hidx h5 hlen hne hn
  rw [sgrStep_38, extendedColor_mode5 hidx h5 hlen hne hn]
  rfl

/-- Claim C6 witness: `['38','5','7']` sets the foreground to 7. -/
theorem claim_C6_first_occurrence_witness :
    sgrStep ["38", "5", "7"] initState "38" =
      .ok { initState with fg_color := some 7 } :=
  claim_C6_first_occurrence_amended ["38", "5", "7"] initState 0 7
    (by rfl) (by rfl) (by decide) (by decide) (by rfl)

/-- Claim C7: if reverse video is active at emission time, the emitted
cell's color descriptor swaps foreground and background, while the parser's
stored `fg_color`/`bg_color` are unchanged by the emission; concretely,
after `ESC[31;42m ESC[7m A ESC[27m B` the cell for `A` carries `"2 on 1"`
and the cell for `B` carries the original `"1 on 2"`. -/
theorem claim_C7_reverse_swap :
    (∀ (ch : Char) (st : PState),
      (add_character ch st).fg_color = st.fg_color ∧
      (add_character ch st).bg_color = st.bg_color ∧
      (st.reverse = true →
        (add_character ch st).rows = st.rows ++
          [{ type := "", x := st.x, y := st.y, text := ch,
             color := color_descriptor st.bold st.underline st.bg_color st.fg_color,
             tags := [] }])) ∧
    parse "\x1b[31;42m\x1b[7mA\x1b[27mB".data =
      .ok [{ type := "", x := 0, y := 0, text := 'A', color := "2 on 1", tags := [] },
           { type := "", x := 1, y := 0, text := 'B', color := "1 on 2", tags := [] }] := by
  constructor
  · intro ch st
    refine ⟨rfl, rfl, fun hrev => ?_⟩
    rw [(add_character_fields ch st).1, hrev]
    simp
  · rfl

/-- Claim C7 witness: with foreground 1, background 2 and reverse active,
the emitted cell's descriptor is built from background 2 before
foreground 1, and the state fields are untouched. -/
theorem claim_C7_reverse_swap_witness :
    (add_character 'X'
        { initState with fg_color := some 1, bg_color := some 2, reverse := true }).rows =
      [{ type := "", x := 0, y := 0, text := 'X',
         color := color_descriptor false false (some 2) (some 1), tags := [] }] := by
  have h := (claim_C7_reverse_swap.1 'X'
    { initState with fg_color := some 1, bg_color := some 2, reverse := true }).2.2 rfl
  simpa using h

/-- Claim C8: `rgb_to_256` maps (255,255,255) to 231, (0,0,0) to 16 and
(255,0,0) to 196; in general for r=g=b it returns 16 when r<8, 231 when
r>248 and round(((r-8)/247)*24)+232 otherwise, and for non-grayscale inputs
16 + 36*round(r/51) + 6*round(g/51) + round(b/51), where the rounding
(`pyRoundDiv`) is to a nearest integer: twice the residual against the
denominator stays within [-d, d]. -/
theorem claim_C8_rgb_quantization :
    rgb_to_256 255 255 255 = 231 ∧ rgb_to_256 0 0 0 = 16 ∧ rgb_to_256 255 0 0 = 196 ∧
    (∀ r : Int, r < 8 → rgb_to_256 r r r = 16) ∧
    (∀ r : Int, 248 < r → rgb_to_256 r r r = 231) ∧
    (∀ r : Int, 8 ≤ r → r ≤ 248 →
      rgb_to_256 r r r = pyRoundDiv ((r - 8) * 24) 247 + 232) ∧
    (∀ r g b : Int, ¬(r = g ∧ g = b) →
      rgb_to_256 r g b =
        16 + 36 * pyRoundDiv r 51 + 6 * pyRoundDiv g 51 + pyRoundDiv b 51) ∧
    (∀ a : Int, -51 ≤ 2 * (a - 51 * pyRoundDiv a 51) ∧
      2 * (a - 51 * pyRoundDiv a 51) ≤ 51) ∧
    (∀ a : Int, -247 ≤ 2 * (a - 247 * pyRoundDiv a 247) ∧
      2 * (a - 247 * pyRoundDiv a 247) ≤ 247) := by
  refine ⟨by decide, by decide, by decide, ?_, ?_, ?_, ?_, ?_, ?_⟩
  · intro r hr
    unfold rgb_to_256
    rw [if_pos ⟨rfl, rfl⟩, if_pos hr]
  · intro r hr
    unfold rgb_to_256
    rw [if_pos ⟨rfl, rfl⟩, if_neg (by omega), if_pos (by omega)]
  · intro r h8 h248
    unfold rgb_to_256
    rw [if_pos ⟨rfl, rfl⟩, if_neg (by omega), if_neg (by omega)]
  · intro r g b hne
    unfold rgb_to_256
    rw [if_neg hne]
  · intro a
    unfold pyRoundDiv
    split
    · omega
    · split
      · omega
      · split <;> omega
  · intro a
    unfold pyRoundDiv
    split
    · omega
    · split
      · omega
      · split <;> omega

/-- Claim C8 witness: the grayscale low branch at 3, the ramp branch at 100
and the cube branch at (1,2,3). -/
theorem claim_C8_rgb_quantization_witness :
    rgb_to_256 3 3 3 = 16 ∧
    rgb_to_256 100 100 100 = pyRoundDiv ((100 - 8) * 24) 247 + 232 ∧
    rgb_to_256 1 2 3 = 16 + 36 * pyRoundDiv 1 51 + 6 * pyRoundDiv 2 51 + pyRoundDiv 3 51 :=
  ⟨claim_C8_rgb_quantization.2.2.2.1 3 (by decide),
   claim_C8_rgb_quantization.2.2.2.2.2.1 100 (by decide) (by decide),
   claim_C8_rgb_quantization.2.2.2.2.2.2.1 1 2 3 (by decide)⟩

/-- Claim C9: every branch of the scanner consumes at least one character —
the CSI, OSC and charset matchers return a strictly shorter remainder, and
the single-character fallback consumes one — hence the scan loop runs within
the `content.length` fuel bound: any fuel at least the input length computes
the same result, so `parse` terminates on every finite input. -/
theorem claim_C9_scanner_progress :
    (∀ (cs ps rest : List Char) (c : Char),
      csiMatch cs = some (ps, c, rest) → rest.length < cs.length) ∧
    (∀ (cs rest : List Char), oscMatch cs = some rest → rest.length < cs.length) ∧
    (∀ (cs rest : List Char), charsetMatch cs = some rest → rest.length < cs.length) ∧
    (∀ (f : Nat) (cs : List Char) (st : PState), cs.length ≤ f →
      parseLoopF st f cs = parseLoopF st cs.length cs) :=
  ⟨fun _ _ _ _ h => csiMatch_progress h, fun _ _ h => oscMatch_progress h,
   fun _ _ h => charsetMatch_progress h, fun _ _ st h => parseLoopF_fuel st h⟩

/-- Claim C9 witness: the CSI matcher on `ESC[m` consumes all three
characters, and surplus fuel does not change the result of the loop. -/
theorem claim_C9_scanner_progress_witness :
    ([] : List Char).length < (['\x1b', '[', 'm'] : List Char).length ∧
    parseLoopF initState 7 ['A'] = parseLoopF initState (['A'] : List Char).length ['A'] :=
  ⟨claim_C9_scanner_progress.1 ['\x1b', '[', 'm'] [] [] 'm' (by rfl),
   claim_C9_scanner_progress.2.2.2 7 ['A'] initState (by decide)⟩

/-- Claim C10: the `for param in params` loop of `handle_sgr` does not skip
the sub-parameters consumed by an extended color form; they are re-processed
as standalone SGR codes.  `handle_sgr(['38','5','4'])` sets the foreground
to 4 via the extended form AND sets underline because the trailing `'4'` is
interpreted again as SGR code 4. -/
theorem claim_C10_subparams_reprocessed :
    handle_sgr ["38", "5", "4"] initState =
      .ok { initState with fg_color := some 4, underline := true } := by rfl
